import Mathlib

/-!
Shallow embedding of the Mello phone-agent call bridge
(src/phone-agent/bot.py, src/phone-agent/bot_hume_evi.py,
src/phone-agent/server.py).

Bytes are modelled as `List Nat` (each entry a byte value). The
`HumeEVIHandler` class of bot.py becomes an explicit record
`BridgeState` plus pure state-transition functions, one per method.
Base64 encoding/decoding models Python's `base64.b64encode` /
`base64.b64decode` on the standard alphabet (decoding rejects
malformed input, as `b64decode` raises `binascii.Error` there).
-/

/-- The standard base64 alphabet, as used by `base64.b64encode`. -/
def b64Alphabet : List Char :=
  "ABCDEFGHIJKLMNOPQRSTUVWXYZabcdefghijklmnopqrstuvwxyz0123456789+/".toList

/-- The base64 digit for a sextet value `v < 64`. -/
def b64Char (v : Nat) : Char := b64Alphabet.getD v '?'

/-- The sextet value of a base64 digit, `none` for a non-alphabet character. -/
def b64CharVal (c : Char) : Option Nat :=
  if 'A' ≤ c ∧ c ≤ 'Z' then some (c.toNat - 65)
  else if 'a' ≤ c ∧ c ≤ 'z' then some (c.toNat - 71)
  else if '0' ≤ c ∧ c ≤ '9' then some (c.toNat + 4)
  else if c = '+' then some 62
  else if c = '/' then some 63
  else none

/-- Base64 encoding of a byte list, three bytes to four digits with
trailing padding, as produced by `base64.b64encode`. -/
def base64EncodeChars : List Nat → List Char
  | [] => []
  | [x] => [b64Char (x / 4), b64Char (x % 4 * 16), '=', '=']
  | [x, y] => [b64Char (x / 4), b64Char (x % 4 * 16 + y / 16), b64Char (y % 16 * 4), '=']
  | x :: y :: z :: rest =>
      b64Char (x / 4) :: b64Char (x % 4 * 16 + y / 16) ::
      b64Char (y % 16 * 4 + z / 64) :: b64Char (z % 64) :: base64EncodeChars rest

/-- `base64.b64encode(bytes).decode("utf-8")`. -/
def base64Encode (bytes : List Nat) : String := String.mk (base64EncodeChars bytes)

/-- A character kept by `b64decode`'s pre-filter: alphabet or padding. -/
def isB64Sym (c : Char) : Bool := (b64CharVal c).isSome || c = '='

/-- Decode a filtered base64 character stream quad by quad; `none` models
`binascii.Error` on malformed input (bad length or misplaced padding). -/
def decodeQuads : List Char → Option (List Nat)
  | [] => some []
  | a :: b :: c :: d :: rest =>
    match b64CharVal a, b64CharVal b with
    | some va, some vb =>
      if c = '=' then
        if d = '=' ∧ rest = [] then some [va * 4 + vb / 16] else none
      else
        match b64CharVal c with
        | some vc =>
          if d = '=' then
            if rest = [] then some [va * 4 + vb / 16, vb % 16 * 16 + vc / 4] else none
          else
            match b64CharVal d with
            | some vd =>
              (decodeQuads rest).map
                (fun bs =>
                  (va * 4 + vb / 16) :: (vb % 16 * 16 + vc / 4) :: (vc % 4 * 64 + vd) :: bs)
            | none => none
        | none => none
    | _, _ => none
  | _ => none

/-- `base64.b64decode` on a character list: non-alphabet characters are
discarded (default `validate=False`), then quads are decoded. -/
def base64DecodeChars (cs : List Char) : Option (List Nat) :=
  decodeQuads (cs.filter isB64Sym)

/-- `base64.b64decode(s.encode("utf-8"))`. -/
def base64Decode (s : String) : Option (List Nat) := base64DecodeChars s.toList

/-- One inbound event from the Hume EVI `SubscribeEvent` stream, keyed by
the `message.type` discriminator dispatched in `_handle_message`. -/
inductive InboundEvent
  | chatMetadata (chatId : String)
  | userMessage (content : String) (prosodyScores : Option (List (String × ℚ)))
  | assistantMessage (content : String)
  | audioOutput (data : Option String)
  | userInterruption
  | error (code : String) (msg : String)
deriving Repr, DecidableEq

/-- The mutable state of one `HumeEVIHandler` (bot.py), plus observation
fields recording its side effects on collaborators:
`sentRemote` the base64 payloads published via `socket.send_publish`,
`sentMedia` the chunks handed to the WhatsApp transport,
`closeCount` how many times `socket.__aexit__` was invoked,
`nextSession` a counter of remote sessions opened by `connect`. -/
structure BridgeState where
  socket : Option Nat
  running : Bool
  queue : List (List Nat)
  sentRemote : List String
  sentMedia : List (List Nat)
  closeCount : Nat
  nextSession : Nat
deriving Repr, DecidableEq

/-- `HumeEVIHandler.__init__`: no socket, not running, empty output queue. -/
def initState : BridgeState :=
  { socket := none
    running := false
    queue := []
    sentRemote := []
    sentMedia := []
    closeCount := 0
    nextSession := 0 }

namespace HumeEVIHandler

/-- `HumeEVIHandler.connect` (bot.py lines 46-65): unconditionally opens a
new remote session, stores the handle in `self.socket` and sets
`self._running = True`. There is no state guard. -/
def connect (st : BridgeState) : BridgeState :=
  { st with
    socket := some st.nextSession
    running := true
    nextSession := st.nextSession + 1 }

/-- `HumeEVIHandler.disconnect` (bot.py lines 67-75): sets
`self._running = False`; if `self.socket` is set, invokes
`socket.__aexit__` (exceptions swallowed). The socket field is never
cleared. -/
def disconnect (st : BridgeState) : BridgeState :=
  { st with
    running := false
    closeCount := st.closeCount + (if st.socket.isSome then 1 else 0) }

/-- `HumeEVIHandler.send_audio` (bot.py lines 77-81): publishes the
base64-encoded chunk to the socket only when `self.socket and
self._running`; otherwise does nothing. -/
def sendAudio (st : BridgeState) (chunk : List Nat) : BridgeState :=
  if st.socket.isSome ∧ st.running then
    { st with sentRemote := st.sentRemote ++ [base64Encode chunk] }
  else st

/-- `HumeEVIHandler.get_output_audio` (bot.py lines 83-88): pops the front
of the output queue; `none` models the `asyncio.TimeoutError` path on an
empty queue. -/
def getOutputAudio (st : BridgeState) : Option (List Nat) × BridgeState :=
  match st.queue with
  | [] => (none, st)
  | b :: rest => (some b, { st with queue := rest })

/-- `HumeEVIHandler._handle_message` (bot.py lines 102-132): only
`audio_output` events with truthy `data` mutate state, enqueueing the
base64-decoded payload; `Except.error` models the `binascii.Error`
raised by `b64decode` on malformed data. Every other event type,
including `error`, is logged only. -/
def handleMessage (ev : InboundEvent) (st : BridgeState) : Except String BridgeState :=
  match ev with
  | .audioOutput none => .ok st
  | .audioOutput (some s) =>
    if s = "" then .ok st
    else
      match base64Decode s with
      | some bytes => .ok { st with queue := st.queue ++ [bytes] }
      | none => .error ("binascii.Error")
  | _ => .ok st

/-- The `async for` body of `HumeEVIHandler.process_messages` (bot.py
lines 90-100): handle each event, break when `self._running` is false,
stop with the pending exception if handling raised. Returns the state
reached together with the exception, if any. -/
def processEvents : List InboundEvent → BridgeState → BridgeState × Option String
  | [], st => (st, none)
  | ev :: rest, st =>
    match handleMessage ev st with
    | .ok st' => if st'.running then processEvents rest st' else (st', none)
    | .error e => (st, some e)

/-- `HumeEVIHandler.process_messages` (bot.py lines 90-100): the loop body
wrapped in `try/except` — exceptions are caught and logged, so the
method always returns the state the loop reached. -/
def processMessages (events : List InboundEvent) (st : BridgeState) : BridgeState :=
  (processEvents events st).1

end HumeEVIHandler

/-- Repeatedly pop the output queue via `get_output_audio` until the
timeout path returns `none`, collecting the yielded chunks in order. -/
def drain : Nat → BridgeState → List (List Nat)
  | 0, _ => []
  | n + 1, st =>
    match HumeEVIHandler.getOutputAudio st with
    | (none, _) => []
    | (some b, st') => b :: drain n st'

/-- The bridge together with the outbound pump task's control point.
`pumpWaiting` is true while `_forward_hume_to_whatsapp` (bot.py lines
227-241) is suspended inside `get_output_audio`'s
`asyncio.wait_for(self._output_queue.get(), timeout)` — that is, after
the current iteration's `while hume._running` check but before its
`transport.send_audio`. -/
structure PumpSystem where
  bridge : BridgeState
  pumpWaiting : Bool
deriving Repr, DecidableEq

/-- An atomic step of the per-call task set between two suspension
points. The outbound pump iteration is split at its internal `await`,
as the code suspends there: `pumpEnter` is the `while hume._running`
check followed by entering the queue pop; `pumpWake` is the pending pop
completing with a chunk and the iteration's `transport.send_audio`
(the running flag is not re-checked in between); `pumpTimeout` is the
`asyncio.TimeoutError` path, where `get_output_audio` returns `None`
and control returns to the loop head. `deliver` is one
`_handle_message` call inside `process_messages`; a raised decode error
is caught by the loop's `except`, leaving the state unchanged. -/
inductive Step
  | connect
  | disconnect
  | sendAudio (chunk : List Nat)
  | deliver (ev : InboundEvent)
  | pumpEnter
  | pumpWake
  | pumpTimeout
deriving Repr, DecidableEq

/-- Execute one step. `pumpWake` fires only while the pump is suspended
in the pop and a chunk is available. -/
def sysStep : Step → PumpSystem → PumpSystem
  | .connect, s => { s with bridge := HumeEVIHandler.connect s.bridge }
  | .disconnect, s => { s with bridge := HumeEVIHandler.disconnect s.bridge }
  | .sendAudio chunk, s => { s with bridge := HumeEVIHandler.sendAudio s.bridge chunk }
  | .deliver ev, s =>
    match HumeEVIHandler.handleMessage ev s.bridge with
    | .ok b => { s with bridge := b }
    | .error _ => s
  | .pumpEnter, s =>
    if s.bridge.running then { s with pumpWaiting := true } else s
  | .pumpWake, s =>
    if s.pumpWaiting then
      match HumeEVIHandler.getOutputAudio s.bridge with
      | (some b, b') =>
        { bridge := { b' with sentMedia := b'.sentMedia ++ [b] }, pumpWaiting := false }
      | (none, _) => s
    else s
  | .pumpTimeout, s => { s with pumpWaiting := false }

/-- Run a sequence of interleaved steps. -/
def runSys (steps : List Step) (s : PumpSystem) : PumpSystem :=
  steps.foldl (fun a stp => sysStep stp a) s

/-- The descending-score order used at bot.py line 114:
`sorted(scores.items(), key=lambda x: x[1], reverse=True)`. -/
def scoreGE (a b : String × ℚ) : Prop := b.2 ≤ a.2

instance : DecidableRel scoreGE := fun a b => inferInstanceAs (Decidable (b.2 ≤ a.2))

instance : IsTotal (String × ℚ) scoreGE := ⟨fun a b => le_total b.2 a.2⟩

instance : IsTrans (String × ℚ) scoreGE := ⟨fun _ _ _ hab hbc => le_trans hbc hab⟩

/-- Python's `sorted(..., key=lambda x: x[1], reverse=True)`: a stable
sort by descending score. Insertion sort with `scoreGE` places an
earlier element before later equal-scored ones, matching CPython's
stability guarantee under `reverse=True`. -/
def sortScoresDesc (l : List (String × ℚ)) : List (String × ℚ) :=
  l.insertionSort scoreGE

/-- bot.py line 114: `sorted(scores.items(), key=lambda x: x[1],
reverse=True)[:3]` — the top-3 prosody entries by descending score. -/
def topEmotions (scores : List (String × ℚ)) : List (String × ℚ) :=
  (sortScoresDesc scores).take 3

/-- The chunks one event appends to the output queue under
`_handle_message`: `some []` for events that enqueue nothing,
`some [b]` for a decodable `audio_output` payload, `none` when
`b64decode` would raise. -/
def decodeEvent : InboundEvent → Option (List (List Nat))
  | .audioOutput (some s) =>
    if s = "" then some [] else (base64Decode s).map (fun b => [b])
  | _ => some []

/-- The in-order decoded payloads of an event sequence, `none` if any
`audio_output` payload is undecodable. -/
def decodeAll : List InboundEvent → Option (List (List Nat))
  | [] => some []
  | e :: rest =>
    match decodeEvent e, decodeAll rest with
    | some c, some cs => some (c ++ cs)
    | _, _ => none

/-- The environment variables consumed by server.py and bot.py's
`run_bot`; `none` models an unset variable. -/
structure Env where
  whatsappToken : Option String
  whatsappWebhookVerificationToken : Option String
  whatsappPhoneNumberId : Option String
  humeApiKey : Option String
  humeConfigId : Option String
deriving Repr, DecidableEq

/-- Python truthiness of `os.getenv(...)`: set and non-empty. -/
def present : Option String → Bool
  | none => false
  | some s => !(s == "")

/-- server.py lines 55-59: the `required_vars` dict — only the three
WhatsApp credentials are listed. -/
def required_vars (env : Env) : List (String × Option String) :=
  [("WHATSAPP_TOKEN", env.whatsappToken),
   ("WHATSAPP_WEBHOOK_VERIFICATION_TOKEN", env.whatsappWebhookVerificationToken),
   ("WHATSAPP_PHONE_NUMBER_ID", env.whatsappPhoneNumberId)]

/-- server.py line 61: names of required variables with falsy values. -/
def missing_vars (env : Env) : List String :=
  ((required_vars env).filter (fun p => !(present p.2))).map (fun p => p.1)

/-- server.py lines 62-63: module-level validation — `raise ValueError`
when any WhatsApp variable is missing, before the server starts
serving. The Hume variables are not consulted here. -/
def serverStartup (env : Env) : Except String Unit :=
  if (missing_vars env).isEmpty then .ok ()
  else .error ("Missing required environment variables")

/-- bot.py lines 148-153, inside per-call `run_bot`: if `HUME_API_KEY` or
`HUME_CONFIG_ID` is falsy, log an error and return — the call is
abandoned, the process keeps serving. Returns whether the bot
proceeds for this call. -/
def runBotStarts (env : Env) : Bool :=
  present env.humeApiKey && present env.humeConfigId

/-- An environment with all WhatsApp credentials set and both Hume
variables unset. -/
def envMissingHume : Env :=
  { whatsappToken := some ("token")
    whatsappWebhookVerificationToken := some ("verify")
    whatsappPhoneNumberId := some ("12345")
    humeApiKey := none
    humeConfigId := none }

lemma handleMessage_fields (ev : InboundEvent) (st st' : BridgeState)
    (h : HumeEVIHandler.handleMessage ev st = .ok st') :
    st'.running = st.running ∧ st'.closeCount = st.closeCount ∧
    st'.socket = st.socket ∧ st'.sentRemote = st.sentRemote ∧
    st'.sentMedia = st.sentMedia ∧ st'.nextSession = st.nextSession := by
  cases ev with
  | audioOutput d =>
    cases d with
    | none =>
      simp only [HumeEVIHandler.handleMessage] at h
      cases h
      simp
    | some s =>
      simp only [HumeEVIHandler.handleMessage] at h
      split at h
      · cases h; simp
      · split at h
        · cases h; simp
        · cases h
  | chatMetadata c => cases h; simp
  | userMessage c p => cases h; simp
  | assistantMessage c => cases h; simp
  | userInterruption => cases h; simp
  | error c m => cases h; simp

lemma processEvents_fields : ∀ (events : List InboundEvent) (st : BridgeState),
    (HumeEVIHandler.processEvents events st).1.running = st.running ∧
    (HumeEVIHandler.processEvents events st).1.closeCount = st.closeCount ∧
    (HumeEVIHandler.processEvents events st).1.socket = st.socket ∧
    (HumeEVIHandler.processEvents events st).1.sentRemote = st.sentRemote ∧
    (HumeEVIHandler.processEvents events st).1.sentMedia = st.sentMedia
  | [], st => by simp [HumeEVIHandler.processEvents]
  | ev :: rest, st => by
    simp only [HumeEVIHandler.processEvents]
    cases hh : HumeEVIHandler.handleMessage ev st with
    | ok st1 =>
      obtain ⟨h1, h2, h3, h4, h5, _⟩ := handleMessage_fields ev st st1 hh
      by_cases hr : st1.running = true
      · simp only [hr, if_true]
        obtain ⟨g1, g2, g3, g4, g5⟩ := processEvents_fields rest st1
        exact ⟨g1.trans h1, g2.trans h2, g3.trans h3, g4.trans h4, g5.trans h5⟩
      · simp only [Bool.not_eq_true] at hr
        simp only [hr, if_false]
        exact ⟨h1, h2, h3, h4, h5⟩
    | error e => simp

/-- C2: `send_audio` forwards the (base64-encoded) chunk to the remote
session if and only if the socket is set and the running flag is true;
in every other state it is a silent no-op (total function, no raise,
nothing forwarded). -/
theorem spec_C2 (st : BridgeState) (chunk : List Nat) :
    ((st.socket.isSome ∧ st.running = true) →
      (HumeEVIHandler.sendAudio st chunk).sentRemote
        = st.sentRemote ++ [base64Encode chunk]) ∧
    (¬(st.socket.isSome ∧ st.running = true) →
      HumeEVIHandler.sendAudio st chunk = st) := by
  constructor
  · intro h
    simp only [HumeEVIHandler.sendAudio, if_pos h]
  · intro h
    simp only [HumeEVIHandler.sendAudio, ite_eq_right_iff]
    intro hc
    exact absurd hc h

theorem spec_C2_witness :
    ((HumeEVIHandler.connect initState).socket.isSome ∧
      (HumeEVIHandler.connect initState).running = true) ∧
    (HumeEVIHandler.sendAudio (HumeEVIHandler.connect initState) [65]).sentRemote
      = (HumeEVIHandler.connect initState).sentRemote ++ [base64Encode [65]] ∧
    ¬((HumeEVIHandler.disconnect (HumeEVIHandler.connect initState)).socket.isSome ∧
      (HumeEVIHandler.disconnect (HumeEVIHandler.connect initState)).running = true) ∧
    HumeEVIHandler.sendAudio
      (HumeEVIHandler.disconnect (HumeEVIHandler.connect initState)) [65]
      = HumeEVIHandler.disconnect (HumeEVIHandler.connect initState) := by
  refine ⟨by decide, (spec_C2 (HumeEVIHandler.connect initState) [65]).1 (by decide),
    by decide, (spec_C2 (HumeEVIHandler.disconnect (HumeEVIHandler.connect initState)) [65]).2 (by decide)⟩

/-- C3 counterexample: two `disconnect()` calls on a connected bridge
invoke the remote-session close twice — teardown side effects are not
performed at most once, because `self.socket` is never cleared. -/
theorem spec_C3_cex :
    (HumeEVIHandler.disconnect (HumeEVIHandler.disconnect
      (HumeEVIHandler.connect initState))).closeCount = 2 ∧
    (HumeEVIHandler.disconnect (HumeEVIHandler.connect initState)).closeCount = 1 := by
  decide

/-- C3 amended: every `disconnect()` call on a bridge whose socket is set
clears the running flag and never raises (bot.py swallows close
errors), but each call re-invokes the session close — after `n` calls
the close has run `n` times, not at most once. -/
theorem spec_C3 (st : BridgeState) (h : st.socket.isSome = true) (n : ℕ) :
    (HumeEVIHandler.disconnect^[n] st).closeCount = st.closeCount + n ∧
    (HumeEVIHandler.disconnect^[n] st).socket = st.socket ∧
    (0 < n → (HumeEVIHandler.disconnect^[n] st).running = false) := by
  induction n with
  | zero => simp
  | succ k ih =>
    obtain ⟨h1, h2, h3⟩ := ih
    rw [Function.iterate_succ_apply']
    refine ⟨?_, ?_, ?_⟩
    · simp [HumeEVIHandler.disconnect, h1, h2, h]
      omega
    · simpa [HumeEVIHandler.disconnect] using h2
    · intro _
      simp [HumeEVIHandler.disconnect]

theorem spec_C3_witness :
    (HumeEVIHandler.connect initState).socket.isSome = true ∧
    (HumeEVIHandler.disconnect^[2] (HumeEVIHandler.connect initState)).closeCount
      = (HumeEVIHandler.connect initState).closeCount + 2 ∧
    (HumeEVIHandler.disconnect^[2] (HumeEVIHandler.connect initState)).running = false := by
  refine ⟨by decide, (spec_C3 (HumeEVIHandler.connect initState) (by decide) 2).1, ?_⟩
  exact (spec_C3 (HumeEVIHandler.connect initState) (by decide) 2).2.2 (by decide)

/-- C4 counterexample: `process_messages` exits (stream exhausted, or the
handler raised on undecodable audio data) with the running flag still
set — the loop does not clear it. -/
theorem spec_C4_cex :
    (HumeEVIHandler.processMessages [] (HumeEVIHandler.connect initState)).running = true ∧
    (HumeEVIHandler.processMessages [InboundEvent.audioOutput (some ("QQ"))]
      (HumeEVIHandler.connect initState)).running = true := by
  decide

/-- C4 amended: on exhaustion or exception, `process_messages` logs and
exits without calling `disconnect` and without touching the running
flag: flag, close count and socket are all left exactly as they were. -/
theorem spec_C4 (events : List InboundEvent) (st : BridgeState) :
    (HumeEVIHandler.processMessages events st).running = st.running ∧
    (HumeEVIHandler.processMessages events st).closeCount = st.closeCount ∧
    (HumeEVIHandler.processMessages events st).socket = st.socket := by
  obtain ⟨h1, h2, h3, _, _⟩ := processEvents_fields events st
  exact ⟨h1, h2, h3⟩

/-- C5 counterexample: an `error` event on an Active bridge leaves the
running flag set and performs no teardown — there is no
Active→Disconnecting transition. -/
theorem spec_C5_cex :
    (HumeEVIHandler.processMessages [InboundEvent.error ("internal") ("x")]
      (HumeEVIHandler.connect initState)).running = true ∧
    (HumeEVIHandler.processMessages [InboundEvent.error ("internal") ("x")]
      (HumeEVIHandler.connect initState)).closeCount = 0 := by
  decide

/-- C5 amended: `_handle_message` only logs an `error` event; the bridge
state is returned completely unchanged, for every error code. -/
theorem spec_C5 (st : BridgeState) (code msg : String) :
    HumeEVIHandler.handleMessage (InboundEvent.error code msg) st = .ok st := rfl

/-- C9 counterexample: `connect()` on an already-Active bridge does not
fail — it opens a second remote session (session counter reaches 2)
and overwrites the socket handle without ever closing session 0. -/
theorem spec_C9_cex :
    (HumeEVIHandler.connect initState).socket = some 0 ∧
    (HumeEVIHandler.connect (HumeEVIHandler.connect initState)).running = true ∧
    (HumeEVIHandler.connect (HumeEVIHandler.connect initState)).nextSession = 2 ∧
    (HumeEVIHandler.connect (HumeEVIHandler.connect initState)).socket = some 1 ∧
    (HumeEVIHandler.connect (HumeEVIHandler.connect initState)).closeCount = 0 := by
  decide

/-- C9 amended: `connect` has no state guard: on any bridge whose socket
is already set it succeeds, stores a fresh session handle distinct from
the old one, and never closes the old session. -/
theorem spec_C9 (st : BridgeState) (k : ℕ) (h : st.socket = some k)
    (hk : k < st.nextSession) :
    (HumeEVIHandler.connect st).running = true ∧
    (HumeEVIHandler.connect st).socket = some st.nextSession ∧
    (HumeEVIHandler.connect st).socket ≠ st.socket ∧
    (HumeEVIHandler.connect st).closeCount = st.closeCount := by
  refine ⟨rfl, rfl, ?_, rfl⟩
  simp only [HumeEVIHandler.connect, h]
  intro hc
  cases hc
  omega

theorem spec_C9_witness :
    (HumeEVIHandler.connect initState).socket = some 0 ∧
    0 < (HumeEVIHandler.connect initState).nextSession ∧
    (HumeEVIHandler.connect (HumeEVIHandler.connect initState)).socket
      ≠ (HumeEVIHandler.connect initState).socket := by
  exact ⟨by decide, by decide,
    (spec_C9 (HumeEVIHandler.connect initState) 0 (by decide) (by decide)).2.2.1⟩

/-- C7: with all WhatsApp credentials set but the Hume key and config id
unset, server.py's startup validation passes (the process serves) while
each call's `run_bot` refuses to start — the remote-service credentials
are handled per call, and the startup check never consults them. -/
theorem spec_C7 :
    serverStartup envMissingHume = .ok () ∧
    runBotStarts envMissingHume = false ∧
    (∀ (env : Env) (k c : Option String),
      serverStartup { env with humeApiKey := k, humeConfigId := c } = serverStartup env) := by
  exact ⟨rfl, rfl, fun env k c => rfl⟩

lemma handleMessage_queue (ev : InboundEvent) (st : BridgeState) (c : List (List Nat))
    (h : decodeEvent ev = some c) :
    HumeEVIHandler.handleMessage ev st = .ok { st with queue := st.queue ++ c } := by
  cases ev with
  | audioOutput d =>
    cases d with
    | none =>
      simp only [decodeEvent] at h
      cases h
      simp [HumeEVIHandler.handleMessage]
    | some s =>
      simp only [decodeEvent] at h
      by_cases hs : s = ""
      · rw [if_pos hs] at h
        cases h
        simp [HumeEVIHandler.handleMessage, hs]
      · rw [if_neg hs] at h
        cases hb : base64Decode s with
        | none => rw [hb] at h; cases h
        | some b =>
          rw [hb] at h
          simp only [Option.map_some', Option.some.injEq] at h
          subst h
          simp [HumeEVIHandler.handleMessage, hs, hb]
  | chatMetadata x => simp only [decodeEvent] at h; cases h; simp [HumeEVIHandler.handleMessage]
  | userMessage x p => simp only [decodeEvent] at h; cases h; simp [HumeEVIHandler.handleMessage]
  | assistantMessage x => simp only [decodeEvent] at h; cases h; simp [HumeEVIHandler.handleMessage]
  | userInterruption => simp only [decodeEvent] at h; cases h; simp [HumeEVIHandler.handleMessage]
  | error x m => simp only [decodeEvent] at h; cases h; simp [HumeEVIHandler.handleMessage]

lemma processEvents_run : ∀ (events : List InboundEvent) (st : BridgeState)
    (chunks : List (List Nat)), st.running = true → decodeAll events = some chunks →
    HumeEVIHandler.processEvents events st = ({ st with queue := st.queue ++ chunks }, none)
  | [], st, chunks, h1, h2 => by
    simp only [decodeAll, Option.some.injEq] at h2
    cases h2
    simp [HumeEVIHandler.processEvents]
  | ev :: rest, st, chunks, h1, h2 => by
    simp only [decodeAll] at h2
    cases hde : decodeEvent ev with
    | none => rw [hde] at h2; cases h2
    | some c =>
      cases hda : decodeAll rest with
      | none => rw [hde, hda] at h2; cases h2
      | some cs =>
        rw [hde, hda] at h2
        simp only [Option.some.injEq] at h2
        cases h2
        have hm := handleMessage_queue ev st c hde
        have hrun : ({ st with queue := st.queue ++ c } : BridgeState).running = true := h1
        simp only [HumeEVIHandler.processEvents, hm]
        rw [if_pos hrun, processEvents_run rest _ cs hrun hda]
        simp [List.append_assoc]

lemma drain_queue : ∀ (q : List (List Nat)) (st : BridgeState),
    st.queue = q → drain q.length st = q
  | [], st, h => by simp [drain]
  | b :: rest, st, h => by
    simp only [List.length_cons, drain, HumeEVIHandler.getOutputAudio, h]
    exact congrArg (b :: ·) (drain_queue rest { st with queue := rest } rfl)

/-- C1: with the bridge running, delivering any sequence of events whose
`audio_output` payloads all decode appends exactly those decoded
payloads to the output queue in event order, and draining the queue via
`get_output_audio` yields them to the outbound pump in that same order
(FIFO, no reordering, no loss). -/
theorem spec_C1 (events : List InboundEvent) (st : BridgeState)
    (chunks : List (List Nat)) (h1 : st.running = true)
    (h2 : decodeAll events = some chunks) :
    (HumeEVIHandler.processMessages events st).queue = st.queue ++ chunks ∧
    drain (st.queue ++ chunks).length (HumeEVIHandler.processMessages events st)
      = st.queue ++ chunks := by
  have h := processEvents_run events st chunks h1 h2
  have hq : (HumeEVIHandler.processMessages events st).queue = st.queue ++ chunks := by
    simp [HumeEVIHandler.processMessages, h]
  exact ⟨hq, drain_queue (st.queue ++ chunks) _ hq⟩

theorem spec_C1_witness :
    (HumeEVIHandler.connect initState).running = true ∧
    decodeAll [InboundEvent.audioOutput (some ("QUJD")), InboundEvent.userInterruption,
      InboundEvent.audioOutput (some ("QQ=="))] = some [[65, 66, 67], [65]] ∧
    (HumeEVIHandler.processMessages [InboundEvent.audioOutput (some ("QUJD")),
      InboundEvent.userInterruption, InboundEvent.audioOutput (some ("QQ=="))]
      (HumeEVIHandler.connect initState)).queue
      = (HumeEVIHandler.connect initState).queue ++ [[65, 66, 67], [65]] := by
  refine ⟨by decide, by decide, ?_⟩
  exact (spec_C1 [InboundEvent.audioOutput (some ("QUJD")), InboundEvent.userInterruption,
    InboundEvent.audioOutput (some ("QQ=="))] (HumeEVIHandler.connect initState)
    [[65, 66, 67], [65]] (by decide) (by decide)).1

lemma sysStep_stopped (stp : Step) (s : PumpSystem) (h1 : s.bridge.running = false)
    (h2 : stp ≠ Step.connect) :
    (sysStep stp s).bridge.running = false ∧
    (sysStep stp s).bridge.sentRemote = s.bridge.sentRemote ∧
    ∃ extra : List (List Nat),
      (sysStep stp s).bridge.sentMedia = s.bridge.sentMedia ++ extra ∧
      extra.length + (if (sysStep stp s).pumpWaiting then 1 else 0)
        ≤ (if s.pumpWaiting then 1 else 0) := by
  cases stp with
  | connect => exact absurd rfl h2
  | disconnect =>
    have hs : sysStep Step.disconnect s
        = { s with bridge := HumeEVIHandler.disconnect s.bridge } := rfl
    rw [hs]
    exact ⟨rfl, rfl, ⟨[], by simp [HumeEVIHandler.disconnect], by simp⟩⟩
  | sendAudio c =>
    have hb : HumeEVIHandler.sendAudio s.bridge c = s.bridge := by
      simp [HumeEVIHandler.sendAudio, h1]
    have hs : sysStep (Step.sendAudio c) s = s := by simp [sysStep, hb]
    rw [hs]
    exact ⟨h1, rfl, ⟨[], by simp, by simp⟩⟩
  | deliver ev =>
    cases hh : HumeEVIHandler.handleMessage ev s.bridge with
    | ok b =>
      have hs : sysStep (Step.deliver ev) s = { s with bridge := b } := by
        simp [sysStep, hh]
      obtain ⟨f1, _, _, f4, f5, _⟩ := handleMessage_fields ev s.bridge b hh
      rw [hs]
      exact ⟨f1.trans h1, f4, ⟨[], by simp [f5], by simp⟩⟩
    | error e =>
      have hs : sysStep (Step.deliver ev) s = s := by simp [sysStep, hh]
      rw [hs]
      exact ⟨h1, rfl, ⟨[], by simp, by simp⟩⟩
  | pumpEnter =>
    have hs : sysStep Step.pumpEnter s = s := by simp [sysStep, h1]
    rw [hs]
    exact ⟨h1, rfl, ⟨[], by simp, by simp⟩⟩
  | pumpWake =>
    by_cases hw : s.pumpWaiting
    · cases hq : s.bridge.queue with
      | nil =>
        have hs : sysStep Step.pumpWake s = s := by
          simp [sysStep, hw, HumeEVIHandler.getOutputAudio, hq]
        rw [hs]
        exact ⟨h1, rfl, ⟨[], by simp, by simp⟩⟩
      | cons b rest =>
        have hs : sysStep Step.pumpWake s
            = { bridge := { s.bridge with queue := rest, sentMedia := s.bridge.sentMedia ++ [b] }, pumpWaiting := false } := by
          simp [sysStep, hw, HumeEVIHandler.getOutputAudio, hq]
        rw [hs]
        exact ⟨h1, rfl, ⟨[b], rfl, by simp [hw]⟩⟩
    · have hs : sysStep Step.pumpWake s = s := by simp [sysStep, hw]
      rw [hs]
      exact ⟨h1, rfl, ⟨[], by simp, by simp⟩⟩
  | pumpTimeout =>
    have hs : sysStep Step.pumpTimeout s = { s with pumpWaiting := false } := rfl
    rw [hs]
    exact ⟨h1, rfl, ⟨[], by simp, by simp⟩⟩

lemma runSys_stopped : ∀ (steps : List Step) (s : PumpSystem),
    s.bridge.running = false → Step.connect ∉ steps →
    (runSys steps s).bridge.running = false ∧
    (runSys steps s).bridge.sentRemote = s.bridge.sentRemote ∧
    ∃ extra : List (List Nat),
      (runSys steps s).bridge.sentMedia = s.bridge.sentMedia ++ extra ∧
      extra.length + (if (runSys steps s).pumpWaiting then 1 else 0)
        ≤ (if s.pumpWaiting then 1 else 0)
  | [], s, h1, _ => ⟨h1, rfl, ⟨[], by simp [runSys], by simp [runSys]⟩⟩
  | stp :: rest, s, h1, h2 => by
    have hne : stp ≠ Step.connect := fun he => h2 (he ▸ List.mem_cons_self stp rest)
    have hrest : Step.connect ∉ rest := fun hm => h2 (List.mem_cons_of_mem stp hm)
    obtain ⟨g1, g2, e1, ge, gl⟩ := sysStep_stopped stp s h1 hne
    obtain ⟨k1, k2, e2, ke, kl⟩ := runSys_stopped rest (sysStep stp s) g1 hrest
    refine ⟨k1, k2.trans g2, ⟨e1 ++ e2, ?_, ?_⟩⟩
    · show (runSys rest (sysStep stp s)).bridge.sentMedia
        = s.bridge.sentMedia ++ (e1 ++ e2)
      rw [ke, ge, List.append_assoc]
    · show (e1 ++ e2).length + (if (runSys rest (sysStep stp s)).pumpWaiting then 1 else 0)
        ≤ (if s.pumpWaiting then 1 else 0)
      rw [List.length_append]
      omega

/-- C6 counterexample: with the outbound pump already suspended in the
queue pop when `disconnect()` returns (queue empty, nothing yet sent),
an `audio_output` chunk delivered afterwards is still handed to the
media transport: the pending `asyncio.wait_for` pop wakes with it and
the iteration calls `transport.send_audio` without re-checking the
running flag. -/
theorem spec_C6_cex :
    (runSys [Step.pumpEnter, Step.disconnect]
      { bridge := HumeEVIHandler.connect initState, pumpWaiting := false }).bridge.sentMedia
      = [] ∧
    (runSys [Step.pumpEnter, Step.disconnect]
      { bridge := HumeEVIHandler.connect initState, pumpWaiting := false }).bridge.queue
      = [] ∧
    (runSys [Step.pumpEnter, Step.disconnect]
      { bridge := HumeEVIHandler.connect initState, pumpWaiting := false }).bridge.running
      = false ∧
    (runSys [Step.pumpEnter, Step.disconnect,
      Step.deliver (InboundEvent.audioOutput (some ("QQ=="))), Step.pumpWake]
      { bridge := HumeEVIHandler.connect initState, pumpWaiting := false }).bridge.sentMedia
      = [[65]] := by
  decide

/-- C6 amended: after `disconnect()` returns, nothing further is ever
published to the remote session; the media transport receives at most
one further chunk, and only when a pump iteration had already passed
its running-flag check and was suspended in the queue pop when
disconnect returned — if no pop was in flight, nothing further is
forwarded in either direction. -/
theorem spec_C6 (st : BridgeState) (w : Bool) (steps : List Step)
    (h : Step.connect ∉ steps) :
    (runSys steps { bridge := HumeEVIHandler.disconnect st, pumpWaiting := w }).bridge.sentRemote
      = (HumeEVIHandler.disconnect st).sentRemote ∧
    (∃ extra : List (List Nat),
      (runSys steps { bridge := HumeEVIHandler.disconnect st, pumpWaiting := w }).bridge.sentMedia
        = (HumeEVIHandler.disconnect st).sentMedia ++ extra ∧
      extra.length ≤ (if w then 1 else 0)) ∧
    (w = false →
      (runSys steps { bridge := HumeEVIHandler.disconnect st, pumpWaiting := w }).bridge.sentMedia
        = (HumeEVIHandler.disconnect st).sentMedia) := by
  obtain ⟨k1, k2, extra, ke, kl⟩ := runSys_stopped steps
    { bridge := HumeEVIHandler.disconnect st, pumpWaiting := w } rfl h
  have kl' : extra.length
      + (if (runSys steps { bridge := HumeEVIHandler.disconnect st, pumpWaiting := w }).pumpWaiting then 1 else 0)
      ≤ (if w then 1 else 0) := kl
  refine ⟨k2, ⟨extra, ke, by omega⟩, ?_⟩
  intro hw
  subst hw
  have h0 : (if (false : Bool) then 1 else 0) = 0 := by simp
  rw [h0] at kl'
  have hz : extra = [] := List.length_eq_zero.mp (by omega)
  rw [ke, hz, List.append_nil]

theorem spec_C6_witness :
    Step.connect ∉ [Step.deliver (InboundEvent.audioOutput (some ("QQ=="))),
      Step.pumpWake] ∧
    (runSys [Step.deliver (InboundEvent.audioOutput (some ("QQ=="))), Step.pumpWake]
      { bridge := HumeEVIHandler.disconnect (HumeEVIHandler.connect initState),
        pumpWaiting := true }).bridge.sentRemote
      = (HumeEVIHandler.disconnect (HumeEVIHandler.connect initState)).sentRemote ∧
    (∃ extra : List (List Nat),
      (runSys [Step.deliver (InboundEvent.audioOutput (some ("QQ=="))), Step.pumpWake]
        { bridge := HumeEVIHandler.disconnect (HumeEVIHandler.connect initState),
          pumpWaiting := true }).bridge.sentMedia
        = (HumeEVIHandler.disconnect (HumeEVIHandler.connect initState)).sentMedia ++ extra ∧
      extra.length ≤ (if true then 1 else 0)) ∧
    (runSys [Step.deliver (InboundEvent.audioOutput (some ("QQ=="))), Step.pumpWake]
      { bridge := HumeEVIHandler.disconnect (HumeEVIHandler.connect initState),
        pumpWaiting := false }).bridge.sentMedia
      = (HumeEVIHandler.disconnect (HumeEVIHandler.connect initState)).sentMedia := by
  refine ⟨by decide,
    (spec_C6 (HumeEVIHandler.connect initState) true
      [Step.deliver (InboundEvent.audioOutput (some ("QQ=="))), Step.pumpWake]
      (by decide)).1,
    (spec_C6 (HumeEVIHandler.connect initState) true
      [Step.deliver (InboundEvent.audioOutput (some ("QQ=="))), Step.pumpWake]
      (by decide)).2.1,
    (spec_C6 (HumeEVIHandler.connect initState) false
      [Step.deliver (InboundEvent.audioOutput (some ("QQ=="))), Step.pumpWake]
      (by decide)).2.2 rfl⟩

lemma filter_orderedInsert (s : ℚ) (a : String × ℚ) :
    ∀ l : List (String × ℚ),
      (List.orderedInsert scoreGE a l).filter (fun p => decide (p.2 = s))
        = ((a :: l).filter (fun p => decide (p.2 = s)))
  | [] => rfl
  | y :: ys => by
    simp only [List.orderedInsert]
    by_cases hr : scoreGE a y
    · rw [if_pos hr]
    · rw [if_neg hr]
      have ih := filter_orderedInsert s a ys
      by_cases has : a.2 = s
      · have hy : decide (y.2 = s) = false := by
          apply decide_eq_false
          intro hys
          exact hr (le_of_eq (by rw [hys, has]))
        simp only [List.filter_cons, hy, if_false, Bool.false_eq_true, ite_false] at ih ⊢
        exact ih
      · have ha : decide (a.2 = s) = false := decide_eq_false has
        simp only [List.filter_cons, ha, Bool.false_eq_true, ite_false] at ih ⊢
        rw [ih]

lemma filter_sortScoresDesc (s : ℚ) : ∀ l : List (String × ℚ),
    (sortScoresDesc l).filter (fun p => decide (p.2 = s))
      = l.filter (fun p => decide (p.2 = s))
  | [] => rfl
  | a :: l => by
    simp only [sortScoresDesc, List.insertionSort]
    rw [filter_orderedInsert s a (List.insertionSort scoreGE l)]
    simp only [List.filter_cons]
    rw [show (List.insertionSort scoreGE l).filter (fun p => decide (p.2 = s))
        = l.filter (fun p => decide (p.2 = s)) from filter_sortScoresDesc s l]

/-- C8: the prosody handler's derivation is exactly the first three
entries of a stable descending-by-score sort: the sorted list is a
permutation of the input, is sorted by `scoreGE`, and preserves the
original relative order of equal-scored entries; on the spec's example
the derived list is joy 0.9, calm 0.4, sadness 0.3, in that order. -/
theorem spec_C8 :
    (∀ scores : List (String × ℚ), topEmotions scores = (sortScoresDesc scores).take 3) ∧
    (∀ scores : List (String × ℚ), List.Sorted scoreGE (sortScoresDesc scores)) ∧
    (∀ scores : List (String × ℚ), List.Perm (sortScoresDesc scores) scores) ∧
    (∀ (scores : List (String × ℚ)) (s : ℚ),
      (sortScoresDesc scores).filter (fun p => decide (p.2 = s))
        = scores.filter (fun p => decide (p.2 = s))) ∧
    topEmotions [("joy", 9/10), ("calm", 2/5), ("anger", 1/10), ("sadness", 3/10)]
      = [("joy", 9/10), ("calm", 2/5), ("sadness", 3/10)] := by
  refine ⟨fun _ => rfl, fun scores => List.sorted_insertionSort scoreGE scores,
    fun scores => List.perm_insertionSort scoreGE scores,
    fun scores s => filter_sortScoresDesc s scores, ?_⟩
  norm_num [topEmotions, sortScoresDesc, List.insertionSort, List.orderedInsert, scoreGE]

lemma b64CharVal_b64Char : ∀ v < 64, b64CharVal (b64Char v) = some v := by decide

lemma b64Char_ne_pad : ∀ v < 64, ¬ (b64Char v = '=') := by decide

lemma isB64Sym_pad : isB64Sym '=' = true := by decide

lemma isB64Sym_b64Char (v : Nat) (h : v < 64) : isB64Sym (b64Char v) = true := by
  simp [isB64Sym, b64CharVal_b64Char v h]

lemma filter_encode : ∀ (bytes : List Nat), (∀ x ∈ bytes, x < 256) →
    (base64EncodeChars bytes).filter isB64Sym = base64EncodeChars bytes
  | [], _ => rfl
  | [x], h => by
    have hx : x < 256 := h x (by simp)
    simp [base64EncodeChars, List.filter_cons, isB64Sym_b64Char (x / 4) (by omega),
      isB64Sym_b64Char (x % 4 * 16) (by omega), isB64Sym_pad]
  | [x, y], h => by
    have hx : x < 256 := h x (by simp)
    have hy : y < 256 := h y (by simp)
    simp [base64EncodeChars, List.filter_cons, isB64Sym_b64Char (x / 4) (by omega),
      isB64Sym_b64Char (x % 4 * 16 + y / 16) (by omega),
      isB64Sym_b64Char (y % 16 * 4) (by omega), isB64Sym_pad]
  | x :: y :: z :: w :: rest, h => by
    have hx : x < 256 := h x (by simp)
    have hy : y < 256 := h y (by simp)
    have hz : z < 256 := h z (by simp)
    have hr : ∀ b ∈ w :: rest, b < 256 := fun b hb => h b (by simp [hb])
    simp only [base64EncodeChars, List.filter_cons, isB64Sym_b64Char (x / 4) (by omega),
      isB64Sym_b64Char (x % 4 * 16 + y / 16) (by omega),
      isB64Sym_b64Char (y % 16 * 4 + z / 64) (by omega),
      isB64Sym_b64Char (z % 64) (by omega), if_true]
    rw [filter_encode (w :: rest) hr]
  | [x, y, z], h => by
    have hx : x < 256 := h x (by simp)
    have hy : y < 256 := h y (by simp)
    have hz : z < 256 := h z (by simp)
    simp [base64EncodeChars, List.filter_cons, isB64Sym_b64Char (x / 4) (by omega),
      isB64Sym_b64Char (x % 4 * 16 + y / 16) (by omega),
      isB64Sym_b64Char (y % 16 * 4 + z / 64) (by omega),
      isB64Sym_b64Char (z % 64) (by omega)]

lemma decodeQuads_encode : ∀ (bytes : List Nat), (∀ x ∈ bytes, x < 256) →
    decodeQuads (base64EncodeChars bytes) = some bytes
  | [], _ => rfl
  | [x], h => by
    have hx : x < 256 := h x (by simp)
    simp only [base64EncodeChars, decodeQuads,
      b64CharVal_b64Char (x / 4) (by omega), b64CharVal_b64Char (x % 4 * 16) (by omega)]
    simp
    omega
  | [x, y], h => by
    have hx : x < 256 := h x (by simp)
    have hy : y < 256 := h y (by simp)
    simp only [base64EncodeChars, decodeQuads,
      b64CharVal_b64Char (x / 4) (by omega),
      b64CharVal_b64Char (x % 4 * 16 + y / 16) (by omega),
      if_neg (b64Char_ne_pad (y % 16 * 4) (by omega)),
      b64CharVal_b64Char (y % 16 * 4) (by omega)]
    simp
    omega
  | x :: y :: z :: w :: rest, h => by
    have hx : x < 256 := h x (by simp)
    have hy : y < 256 := h y (by simp)
    have hz : z < 256 := h z (by simp)
    have hr : ∀ b ∈ w :: rest, b < 256 := fun b hb => h b (by simp [hb])
    simp only [base64EncodeChars, decodeQuads,
      b64CharVal_b64Char (x / 4) (by omega),
      b64CharVal_b64Char (x % 4 * 16 + y / 16) (by omega),
      if_neg (b64Char_ne_pad (y % 16 * 4 + z / 64) (by omega)),
      b64CharVal_b64Char (y % 16 * 4 + z / 64) (by omega),
      if_neg (b64Char_ne_pad (z % 64) (by omega)),
      b64CharVal_b64Char (z % 64) (by omega)]
    rw [decodeQuads_encode (w :: rest) hr]
    simp
    omega
  | [x, y, z], h => by
    have hx : x < 256 := h x (by simp)
    have hy : y < 256 := h y (by simp)
    have hz : z < 256 := h z (by simp)
    simp only [base64EncodeChars, decodeQuads,
      b64CharVal_b64Char (x / 4) (by omega),
      b64CharVal_b64Char (x % 4 * 16 + y / 16) (by omega),
      if_neg (b64Char_ne_pad (y % 16 * 4 + z / 64) (by omega)),
      b64CharVal_b64Char (y % 16 * 4 + z / 64) (by omega),
      if_neg (b64Char_ne_pad (z % 64) (by omega)),
      b64CharVal_b64Char (z % 64) (by omega)]
    simp [decodeQuads]
    omega

lemma base64_roundtrip (bytes : List Nat) (h : ∀ x ∈ bytes, x < 256) :
    base64Decode (base64Encode bytes) = some bytes := by
  show decodeQuads ((base64EncodeChars bytes).filter isB64Sym) = some bytes
  rw [filter_encode bytes h, decodeQuads_encode bytes h]

/-- C10: an `audio_output` event with absent or empty `data` enqueues
nothing; with non-empty decodable `data` it enqueues exactly one chunk,
the base64-decoding of `data` (and `base64Decode` really is base64
decoding: it inverts `base64Encode` on every byte list). -/
theorem spec_C10 (st : BridgeState) :
    HumeEVIHandler.handleMessage (InboundEvent.audioOutput none) st = .ok st ∧
    HumeEVIHandler.handleMessage (InboundEvent.audioOutput (some (""))) st = .ok st ∧
    (∀ (s : String) (b : List ℕ), s ≠ "" → base64Decode s = some b →
      HumeEVIHandler.handleMessage (InboundEvent.audioOutput (some s)) st
        = .ok { st with queue := st.queue ++ [b] }) ∧
    (∀ bytes : List ℕ, (∀ x ∈ bytes, x < 256) →
      base64Decode (base64Encode bytes) = some bytes) ∧
    base64Decode ("QUJD") = some [65, 66, 67] := by
  refine ⟨rfl, rfl, ?_, fun bytes hb => base64_roundtrip bytes hb, by decide⟩
  intro s b hs hdec
  simp [HumeEVIHandler.handleMessage, hs, hdec]

theorem spec_C10_witness :
    HumeEVIHandler.handleMessage (InboundEvent.audioOutput (some ("QUJD"))) initState
      = .ok { initState with queue := initState.queue ++ [[65, 66, 67]] } ∧
    base64Decode (base64Encode [65, 66, 67]) = some [65, 66, 67] := by
  refine ⟨(spec_C10 initState).2.2.1 ("QUJD") [65, 66, 67] (by decide) (by decide),
    (spec_C10 initState).2.2.2.1 [65, 66, 67] (by decide)⟩
